import Mathlib

/-!
# sieve_v3keys: reconciling etcd v2 leaf keys with etcd v3 keys

A shallow embedding of `roles/etcd_migrate/files/sieve_v3keys.go`.

* `getLeafKeys` flattens the v2 response tree into its leaf keys.
* `getDeletedv3Keys` is the nested-loop difference of the v3 listing and the v2 leaf keys.
* `main` is the controller: both listings, the summary header, and the loop that either
  prints or deletes every orphaned key.

The two etcd clients are external libraries; they enter the model as the record `Stores`
of operations over an explicit store state. Standard output is the list of strings written
by the successive `fmt.Printf` / `fmt.Println` calls.
-/

set_option autoImplicit false

namespace Sieve

/-! ## Data model -/

/-- The fields of `client.Node` read by the program: `Key`, `Dir` and the children `Nodes`. -/
inductive Node where
  | mk (Key : String) (Dir : Bool) (Nodes : List Node)

/-- Field `Key` of a node. -/
def Node.Key : Node → String
  | .mk key _ _ => key

/-- Field `Dir` of a node. -/
def Node.Dir : Node → Bool
  | .mk _ dir _ => dir

/-- Field `Nodes` of a node. -/
def Node.Nodes : Node → List Node
  | .mk _ _ nodes => nodes

/-! ## Tree flattener (`getLeafKeys`, lines 100-110) -/

mutual
/-- What one iteration of the loop of `getLeafKeys` appends to `leaves` for `node`:
the result of the recursive call on `node.Nodes` for a directory, `node.Key` otherwise. -/
def leafKeysOf : Node → List String
  | .mk key dir nodes => if dir then getLeafKeys nodes else [key]
termination_by structural node => node
/-- The function `getLeafKeys`: `leaves` starts empty and every node of `nodes`, in order,
appends its contribution. -/
def getLeafKeys : List Node → List String
  | [] => []
  | node :: rest => leafKeysOf node ++ getLeafKeys rest
termination_by structural nodes => nodes
end

/-! ## Key-set differ (`getDeletedv3Keys`, lines 145-160) -/

/-- The inner loop of `getDeletedv3Keys`: scan `v2keys` for an element equal to `v3key`,
stopping (`break`) at the first hit; the value is the final `found`. -/
def foundIn (v3key : String) : List String → Bool
  | [] => false
  | v2key :: rest => if v2key = v3key then true else foundIn v3key rest

/-- The function `getDeletedv3Keys`: the outer loop over `v3keys` with accumulator `deleted`. -/
def getDeletedv3Keys (v2keys v3keys : List String) : List String :=
  v3keys.foldl
    (fun deleted v3key => if !(foundIn v3key v2keys) then deleted ++ [v3key] else deleted) []

/-! ## Store collaborators -/

/-- The operations of the two etcd clients that the program calls, over a store state `σ`.
* `v2Get s` is `keysAPI.Get(ctx, "", {Sort, Quorum, Recursive})`: an error, or
  `lsresp.Node.Nodes`.
* `v3Get s key` is `c.KV.Get(ctx, key, clientv3.WithFromKey())`: an error, or the keys of
  `resp.Kvs` in response order.
* `v3Delete s key` is `c.KV.Delete(ctx, key)`: the store after the call and the error, if any. -/
structure Stores (σ : Type) where
  v2Get : σ → Except String (List Node)
  v3Get : σ → String → Except String (List String)
  v3Delete : σ → String → σ × Option String

/-- The function `getV2Keys` (lines 112-121). -/
def getV2Keys {σ : Type} (S : Stores σ) (s : σ) : Except String (List String) :=
  match S.v2Get s with
  | .error err => .error err
  | .ok nodes => .ok (getLeafKeys nodes)

/-- The function `getV3Keys` (lines 123-134): the request key is the literal `"/"`. -/
def getV3Keys {σ : Type} (S : Stores σ) (s : σ) : Except String (List String) :=
  match S.v3Get s "/" with
  | .error err => .error err
  | .ok kvs => .ok (kvs.foldl (fun keys item => keys ++ [item]) [])

/-- The function `deleteV3Key` (lines 136-143). -/
def deleteV3Key {σ : Type} (S : Stores σ) (s : σ) (key : String) : σ × Option String :=
  match S.v3Delete s key with
  | (t, some err) => (t, some err)
  | (t, none) => (t, none)

/-! ## Migration controller (`main`, lines 190-221) -/

/-- The observable result of a run: `out` is standard output, one entry per print call;
`deletes` is the sequence of keys passed to `deleteV3Key`; `store` is the final store state. -/
structure Run (σ : Type) where
  out : List String
  deletes : List String
  store : σ

/-- The three `fmt.Printf` calls of lines 203-205. -/
def summary (keys v3keys deleted : List String) : List String :=
  [ "# v2 keys in total: " ++ toString keys.length ++ "\n",
    "# v3 keys in total: " ++ toString v3keys.length ++ "\n",
    "# v3 keys not present in v2 (total: " ++ toString deleted.length ++ "):\n\n" ]

/-- The text of line 208. -/
def listHeading : String := "# List of keys that would be deleted:\n"

/-- The line printed by line 216 for a failed delete. -/
def failedLine (key err : String) : String :=
  "Unable to delete key " ++ key ++ ": " ++ err ++ "\n"

/-- The line printed by line 219 for a successful delete; `quote` is the verb `%q`. -/
def deletedLine (quote : String → String) (key : String) : String :=
  quote key ++ " key deleted\n"

/-- The body of the loop of lines 211-221. -/
def applyStep {σ : Type} (S : Stores σ) (quote : String → String) (dryRun : Bool)
    (r : Run σ) (key : String) : Run σ :=
  if dryRun then
    { r with out := r.out ++ [key ++ "\n"] }
  else
    match deleteV3Key S r.store key with
    | (t, some err) =>
        { out := r.out ++ [failedLine key err], deletes := r.deletes ++ [key], store := t }
    | (t, none) =>
        { out := r.out ++ [deletedLine quote key], deletes := r.deletes ++ [key], store := t }

/-- The function `main` from line 190 on, the clients being connected. A failed listing
ends the run (`glog.Fatal`) with the error. -/
def main {σ : Type} (S : Stores σ) (quote : String → String) (dryRun : Bool) (s : σ) :
    Except String (Run σ) :=
  match getV2Keys S s with
  | .error err => .error err
  | .ok keys =>
    match getV3Keys S s with
    | .error err => .error err
    | .ok v3keys =>
      let deleted := getDeletedv3Keys keys v3keys
      let out := summary keys v3keys deleted
      let out := if dryRun then out ++ [listHeading] else out
      .ok (deleted.foldl (applyStep S quote dryRun) { out := out, deletes := [], store := s })

/-! ## Notions used to state the properties -/

mutual
/-- The nodes of the subtree at `node` in depth-first, left-to-right order: the node itself,
then, for a directory, the nodes below it. A non-directory node is a leaf: it has nothing
below it. -/
def nodesOf : Node → List Node
  | .mk key dir nodes => .mk key dir nodes :: (if dir then treeNodes nodes else [])
termination_by structural node => node
/-- The nodes of a forest in depth-first, left-to-right order. -/
def treeNodes : List Node → List Node
  | [] => []
  | node :: rest => nodesOf node ++ treeNodes rest
termination_by structural nodes => nodes
end

/-- A leaf is a node that is not a directory. -/
def isLeaf (node : Node) : Bool := !node.Dir

/-- The difference written with a set-membership structure over the reference keys, as the
design notes ask for: build the set of reference keys once, then keep the candidates that
are not members, in candidate order. -/
def differenceBySet (reference candidate : List String) : List String :=
  let members : Finset String := reference.toFinset
  candidate.filter (fun key => decide (key ∉ members))

/-- Modelled from the spec: the flat store's `listFromKey(startKey)`, which belongs to the
etcd v3 client library and not to this program. The store holds its keys in `store`; the
read returns, in the store's order, every key that is lexicographically greater than or
equal to `start`. -/
def fromKeyRead (store : List String) (start : String) : List String :=
  store.filter (fun key => decide (start.toList ≤ key.toList))

/-- Modelled from the spec: a flat store whose state is its list of keys, next to a fixed
v2 tree. Listing is `fromKeyRead`; a delete removes the key and succeeds. It serves for the
listing and as an instance in examples; deletes that fail are those of `faultyStores` and
`scriptedStores`. -/
def flatStores (tree : List Node) : Stores (List String) where
  v2Get := fun _ => .ok tree
  v3Get := fun store start => .ok (fromKeyRead store start)
  v3Delete := fun store key => (store.filter (fun k => decide (k ≠ key)), none)

/-- Stores whose deletes follow a script: the state is the list of outcomes still to come,
and each delete call consumes the next one (`none` is success, `some err` a failure). -/
def scriptedStores (tree : List Node) (v3keys : List String) : Stores (List (Option String)) where
  v2Get := fun _ => .ok tree
  v3Get := fun _ _ => .ok v3keys
  v3Delete := fun script _ =>
    match script with
    | [] => ([], none)
    | res :: rest => (rest, res)

/-- The outcomes of issuing one delete per key of the list, in order, from state `s`. -/
def deleteResults {σ : Type} (S : Stores σ) : σ → List String → List (String × Option String)
  | _, [] => []
  | s, key :: rest => (key, (S.v3Delete s key).2) :: deleteResults S (S.v3Delete s key).1 rest

/-- The store state after issuing one delete per key of the list, in order, from state `s`. -/
def storeAfter {σ : Type} (S : Stores σ) : σ → List String → σ
  | s, [] => s
  | s, key :: rest => storeAfter S (S.v3Delete s key).1 rest

/-- Modelled from the spec: a flat store whose deletes may fail (`delete(key) ->
success/failure`), next to a fixed v2 tree. The state is the list of stored keys and the
outcomes of the delete calls still to come. Listing is `fromKeyRead`. A delete whose outcome
is `some err` fails and leaves the keys as they are; a delete whose outcome is `none`, or
that comes after the listed outcomes, succeeds and removes the key. -/
def faultyStores (tree : List Node) : Stores (List String × List (Option String)) where
  v2Get := fun _ => .ok tree
  v3Get := fun st start => .ok (fromKeyRead st.1 start)
  v3Delete := fun st key =>
    match st.2 with
    | [] => ((st.1.filter (fun k => decide (k ≠ key)), []), none)
    | none :: rest => ((st.1.filter (fun k => decide (k ≠ key)), rest), none)
    | some err :: rest => ((st.1, rest), some err)

/-- The keys whose delete succeeded, among the outcomes of a sequence of deletes. -/
def succeededKeys : List (String × Option String) → List String
  | [] => []
  | (key, none) :: rest => key :: succeededKeys rest
  | (_, some _) :: rest => succeededKeys rest

/-- The report line of one delete outcome. -/
def outcomeLine (quote : String → String) : String × Option String → String
  | (key, none) => deletedLine quote key
  | (key, some err) => failedLine key err

/-- The number of line terminators in a string. -/
def newlines (text : String) : Nat := text.data.count '\n'

/-- The number of lines of an output: the line terminators written by all print calls. -/
def lineCount (out : List String) : Nat := (out.map newlines).sum

/-- A simple stand-in for the verb `%q` on keys without special characters. -/
def plainQuote (key : String) : String := "\"" ++ key ++ "\""

/-! ## The differ -/

/-- The inner scan finds the key exactly when it is an element of the reference list. -/
theorem foundIn_eq_decide (v3key : String) (v2keys : List String) :
    foundIn v3key v2keys = decide (v3key ∈ v2keys) := by
  induction v2keys with
  | nil => simp [foundIn]
  | cons v2key rest ih =>
    by_cases h : v2key = v3key
    · simp [foundIn, h]
    · have h2 : ¬ v3key = v2key := fun e => h e.symm
      simp [foundIn, h, h2, ih]

/-- The outer loop from an arbitrary accumulator: it appends the filtered candidates. -/
theorem differ_loop (v2keys v3keys acc : List String) :
    v3keys.foldl
      (fun deleted v3key => if !(foundIn v3key v2keys) then deleted ++ [v3key] else deleted) acc
      = acc ++ v3keys.filter (fun key => decide (key ∉ v2keys)) := by
  induction v3keys generalizing acc with
  | nil => simp
  | cons key rest ih =>
    rw [List.foldl_cons, ih]
    by_cases h : key ∈ v2keys
    · simp [foundIn_eq_decide, h]
    · simp [foundIn_eq_decide, h]

/-- The nested loops compute the filter of the candidates by non-membership. -/
theorem getDeletedv3Keys_eq_filter (v2keys v3keys : List String) :
    getDeletedv3Keys v2keys v3keys = v3keys.filter (fun key => decide (key ∉ v2keys)) := by
  unfold getDeletedv3Keys
  rw [differ_loop]
  simp

/-- Membership in the difference. -/
theorem mem_getDeletedv3Keys (v2keys v3keys : List String) (k : String) :
    k ∈ getDeletedv3Keys v2keys v3keys ↔ k ∈ v3keys ∧ k ∉ v2keys := by
  rw [getDeletedv3Keys_eq_filter]
  simp

/-- Claim C1. A string occurs in `getDeletedv3Keys v2keys v3keys` exactly when it occurs in
`v3keys` and no element of `v2keys` equals it; the comparison is plain string equality, so
`"a/b"` does not shield `"/a/b"`; and the three worked differences of the specification
hold. -/
theorem C1_difference_contract :
    (∀ (v2keys v3keys : List String) (k : String),
        k ∈ getDeletedv3Keys v2keys v3keys ↔ (k ∈ v3keys ∧ ¬ ∃ v2key ∈ v2keys, v2key = k)) ∧
    getDeletedv3Keys ["a/b"] ["/a/b"] = ["/a/b"] ∧
    getDeletedv3Keys ["a", "b", "c"] ["a", "b", "d", "e"] = ["d", "e"] ∧
    (∀ x : String, getDeletedv3Keys [] [x] = [x]) ∧
    (∀ x : String, getDeletedv3Keys [x] [] = []) := by
  refine ⟨?_, by decide, by decide, ?_, ?_⟩
  · intro v2keys v3keys k
    rw [mem_getDeletedv3Keys]
    simp
  · intro x
    simp [getDeletedv3Keys, foundIn]
  · intro x
    simp [getDeletedv3Keys]

/-- Claim C9. The nested-loop scan returns the same list as the set-membership
implementation over the reference keys, which is the candidate list filtered, in order and
with multiplicity, by non-membership in the reference; the result is a subsequence of the
candidates. -/
theorem C9_refines_set_difference (v2keys v3keys : List String) :
    getDeletedv3Keys v2keys v3keys = differenceBySet v2keys v3keys ∧
    getDeletedv3Keys v2keys v3keys = v3keys.filter (fun key => decide (key ∉ v2keys)) ∧
    List.Sublist (getDeletedv3Keys v2keys v3keys) v3keys := by
  refine ⟨?_, getDeletedv3Keys_eq_filter v2keys v3keys, ?_⟩
  · rw [getDeletedv3Keys_eq_filter]
    simp [differenceBySet]
  · rw [getDeletedv3Keys_eq_filter]
    exact List.filter_sublist _

/-- Claim C10. The difference depends on the reference list only through its set of
elements: two reference lists with the same elements give the same result on every
candidate list. -/
theorem C10_reference_as_set (r1 r2 c : List String) (h : ∀ k, k ∈ r1 ↔ k ∈ r2) :
    getDeletedv3Keys r1 c = getDeletedv3Keys r2 c := by
  rw [getDeletedv3Keys_eq_filter, getDeletedv3Keys_eq_filter]
  apply List.filter_congr
  intro k _
  simp [h k]

/-- Witness for C10: a reference list with a repeated key against its duplicate-free,
reordered form. -/
theorem C10_reference_as_set_witness :
    (∀ k, k ∈ ["/a", "/b", "/a"] ↔ k ∈ ["/b", "/a"]) ∧
    getDeletedv3Keys ["/a", "/b", "/a"] ["/a", "/c", "/b", "/c"]
      = getDeletedv3Keys ["/b", "/a"] ["/a", "/c", "/b", "/c"] :=
  ⟨by intro k; simp [or_comm],
   C10_reference_as_set ["/a", "/b", "/a"] ["/b", "/a"] ["/a", "/c", "/b", "/c"]
     (by intro k; simp [or_comm])⟩

/-! ## The flattener -/

mutual
/-- The contribution of one node is the keys of the leaves of its subtree, in order. -/
theorem leafKeysOf_eq_leaves : ∀ node : Node,
    leafKeysOf node = ((nodesOf node).filter isLeaf).map Node.Key
  | .mk key dir nodes => by
    cases dir with
    | false => simp [leafKeysOf, nodesOf, isLeaf, Node.Dir, Node.Key]
    | true =>
      simp [leafKeysOf, nodesOf, isLeaf, Node.Dir]
      simpa [isLeaf] using getLeafKeys_eq_leaves nodes
termination_by structural node => node
/-- The flattening of a forest is the keys of its leaves, in depth-first order. -/
theorem getLeafKeys_eq_leaves : ∀ nodes : List Node,
    getLeafKeys nodes = ((treeNodes nodes).filter isLeaf).map Node.Key
  | [] => by simp [getLeafKeys, treeNodes]
  | node :: rest => by
    simp [getLeafKeys, treeNodes, leafKeysOf_eq_leaves node, getLeafKeys_eq_leaves rest]
termination_by structural nodes => nodes
end

/-- Claim C2. `getLeafKeys` returns the keys of the non-directory nodes of the tree in
depth-first, left-to-right order, one entry per leaf node, so its length is the number of
leaf nodes and every entry is the key of a leaf, never an entry for a directory as such;
the tree D1(a, D2(b, c)) gives `[a, b, c]`; an empty node list, like an empty directory,
gives the empty list; two leaves with the same key give two entries. -/
theorem C2_flatten_contract :
    (∀ nodes : List Node,
        getLeafKeys nodes = ((treeNodes nodes).filter isLeaf).map Node.Key ∧
        (getLeafKeys nodes).length = (treeNodes nodes).countP isLeaf ∧
        (∀ k, k ∈ getLeafKeys nodes ↔
          ∃ node, node ∈ treeNodes nodes ∧ node.Dir = false ∧ node.Key = k)) ∧
    getLeafKeys
        [.mk "/D1" true [.mk "a" false [], .mk "/D1/D2" true [.mk "b" false [], .mk "c" false []]]]
      = ["a", "b", "c"] ∧
    getLeafKeys [] = [] ∧
    getLeafKeys [.mk "/D1" true []] = [] ∧
    getLeafKeys [.mk "a" false [], .mk "/D1" true [.mk "a" false []]] = ["a", "a"] := by
  refine ⟨?_, by decide, by decide, by decide, by decide⟩
  intro nodes
  refine ⟨getLeafKeys_eq_leaves nodes, ?_, ?_⟩
  · rw [getLeafKeys_eq_leaves, List.length_map, List.countP_eq_length_filter]
  · intro k
    rw [getLeafKeys_eq_leaves]
    simp [isLeaf, and_assoc]

/-! ## The controller -/

/-- The collecting loop of `getV3Keys` from an arbitrary accumulator. -/
theorem collect_loop (kvs acc : List String) :
    kvs.foldl (fun keys item => keys ++ [item]) acc = acc ++ kvs := by
  induction kvs generalizing acc with
  | nil => simp
  | cons item rest ih => rw [List.foldl_cons, ih]; simp

/-- A successful from-key read is returned unchanged by `getV3Keys`. -/
theorem getV3Keys_ok {σ : Type} (S : Stores σ) (s : σ) (v3keys : List String)
    (h : S.v3Get s "/" = .ok v3keys) : getV3Keys S s = .ok v3keys := by
  simp [getV3Keys, h, collect_loop]

/-- A successful tree listing is flattened by `getV2Keys`. -/
theorem getV2Keys_ok {σ : Type} (S : Stores σ) (s : σ) (tree : List Node)
    (h : S.v2Get s = .ok tree) : getV2Keys S s = .ok (getLeafKeys tree) := by
  simp [getV2Keys, h]

/-- The wrapper `deleteV3Key` passes the outcome of the client call through. -/
theorem deleteV3Key_eq {σ : Type} (S : Stores σ) (s : σ) (key : String) :
    deleteV3Key S s key = S.v3Delete s key := by
  unfold deleteV3Key
  rcases h : S.v3Delete s key with ⟨t, _ | err⟩ <;> rfl

/-- The apply loop in dry-run mode: one bare key line per key, nothing else touched. -/
theorem apply_loop_dry {σ : Type} (S : Stores σ) (quote : String → String)
    (keys : List String) (r : Run σ) :
    keys.foldl (applyStep S quote true) r
      = { r with out := r.out ++ keys.map (fun key => key ++ "\n") } := by
  induction keys generalizing r with
  | nil => simp
  | cons key rest ih =>
    rw [List.foldl_cons, ih]
    simp [applyStep]

/-- The apply loop in live mode: one delete and one outcome line per key, in order. -/
theorem apply_loop_live {σ : Type} (S : Stores σ) (quote : String → String)
    (keys : List String) (r : Run σ) :
    keys.foldl (applyStep S quote false) r
      = { out := r.out ++ (deleteResults S r.store keys).map (outcomeLine quote),
          deletes := r.deletes ++ keys,
          store := storeAfter S r.store keys } := by
  induction keys generalizing r with
  | nil => simp [deleteResults, storeAfter]
  | cons key rest ih =>
    rw [List.foldl_cons, ih]
    simp only [applyStep, deleteV3Key_eq, Bool.false_eq_true, if_false]
    rcases h : S.v3Delete r.store key with ⟨t, _ | err⟩ <;>
      simp [deleteResults, storeAfter, outcomeLine, h]

/-- Every key is attempted: the outcome list names the keys in order. -/
theorem deleteResults_keys {σ : Type} (S : Stores σ) (keys : List String) (s : σ) :
    (deleteResults S s keys).map Prod.fst = keys := by
  induction keys generalizing s with
  | nil => simp [deleteResults]
  | cons key rest ih => simp [deleteResults, ih]

/-- With scripted stores, the outcomes are the script, whatever it assigns to each call. -/
theorem deleteResults_scripted (tree : List Node) (v3keys keys : List String)
    (script : List (Option String)) (h : script.length = keys.length) :
    deleteResults (scriptedStores tree v3keys) script keys = keys.zip script := by
  induction keys generalizing script with
  | nil => simp [deleteResults]
  | cons key rest ih =>
    cases script with
    | nil => simp at h
    | cons res more =>
      simp only [List.length_cons, Nat.add_right_cancel_iff] at h
      have hd : (scriptedStores tree v3keys).v3Delete (res :: more) key = (more, res) := rfl
      simp [deleteResults, hd, ih more h]

/-- The report lines of keys paired with outcomes, written with `zipWith`. -/
theorem outcomeLine_zip (quote : String → String) (keys : List String)
    (script : List (Option String)) :
    (keys.zip script).map (outcomeLine quote)
      = List.zipWith
          (fun key res =>
            match res with
            | none => quote key ++ " key deleted\n"
            | some err => "Unable to delete key " ++ key ++ ": " ++ err ++ "\n")
          keys script := by
  induction keys generalizing script with
  | nil => simp
  | cons key rest ih =>
    cases script with
    | nil => simp
    | cons res more =>
      cases res <;> simp [outcomeLine, deletedLine, failedLine, ih]

/-- A live run that gets past both listings. -/
theorem main_live {σ : Type} (S : Stores σ) (quote : String → String) (s : σ)
    (tree : List Node) (v3keys : List String)
    (h2 : S.v2Get s = .ok tree) (h3 : S.v3Get s "/" = .ok v3keys) :
    main S quote false s = .ok
      { out := summary (getLeafKeys tree) v3keys (getDeletedv3Keys (getLeafKeys tree) v3keys)
          ++ (deleteResults S s (getDeletedv3Keys (getLeafKeys tree) v3keys)).map
              (outcomeLine quote),
        deletes := getDeletedv3Keys (getLeafKeys tree) v3keys,
        store := storeAfter S s (getDeletedv3Keys (getLeafKeys tree) v3keys) } := by
  simp [main, getV2Keys_ok S s tree h2, getV3Keys_ok S s v3keys h3, apply_loop_live]

/-- A dry run that gets past both listings. -/
theorem main_dry {σ : Type} (S : Stores σ) (quote : String → String) (s : σ)
    (tree : List Node) (v3keys : List String)
    (h2 : S.v2Get s = .ok tree) (h3 : S.v3Get s "/" = .ok v3keys) :
    main S quote true s = .ok
      { out := summary (getLeafKeys tree) v3keys (getDeletedv3Keys (getLeafKeys tree) v3keys)
          ++ [listHeading]
          ++ (getDeletedv3Keys (getLeafKeys tree) v3keys).map (fun key => key ++ "\n"),
        deletes := [],
        store := s } := by
  simp [main, getV2Keys_ok S s tree h2, getV3Keys_ok S s v3keys h3, apply_loop_dry]

/-- Claim C3. In live mode, for every v2 tree and every v3 listing, the keys on which the
controller issues a delete are exactly `getDeletedv3Keys (getLeafKeys tree) v3keys`, in
that order; each of them is a listed v3 key, and none equals the key of a leaf node of the
v2 tree. -/
theorem C3_live_deletes_only_orphans {σ : Type} (S : Stores σ) (quote : String → String)
    (s : σ) (tree : List Node) (v3keys : List String)
    (h2 : S.v2Get s = .ok tree) (h3 : S.v3Get s "/" = .ok v3keys) :
    ∃ r, main S quote false s = .ok r ∧
      r.deletes = getDeletedv3Keys (getLeafKeys tree) v3keys ∧
      (∀ k, k ∈ r.deletes → k ∈ v3keys) ∧
      (∀ k, k ∈ r.deletes →
        ¬ ∃ node, node ∈ treeNodes tree ∧ node.Dir = false ∧ node.Key = k) := by
  refine ⟨_, main_live S quote s tree v3keys h2 h3, rfl, ?_, ?_⟩
  · intro k hk
    exact ((mem_getDeletedv3Keys _ _ k).1 hk).1
  · intro k hk hleaf
    apply ((mem_getDeletedv3Keys _ _ k).1 hk).2
    rw [getLeafKeys_eq_leaves]
    obtain ⟨node, hmem, hdir, hkey⟩ := hleaf
    simp only [List.mem_map, List.mem_filter]
    exact ⟨node, ⟨hmem, by simp [isLeaf, hdir]⟩, hkey⟩

/-- Witness for C3: the leaf `/a` of the v2 tree is kept, `/x` and `/y` are deleted. -/
theorem C3_live_deletes_only_orphans_witness :
    (flatStores [.mk "/d" true [.mk "/a" false []]]).v2Get ["/a", "/x", "/y"]
      = .ok [.mk "/d" true [.mk "/a" false []]] ∧
    (flatStores [.mk "/d" true [.mk "/a" false []]]).v3Get ["/a", "/x", "/y"] "/"
      = .ok ["/a", "/x", "/y"] ∧
    ∃ r, main (flatStores [.mk "/d" true [.mk "/a" false []]]) plainQuote false
          ["/a", "/x", "/y"] = .ok r ∧
      r.deletes = getDeletedv3Keys (getLeafKeys [.mk "/d" true [.mk "/a" false []]])
          ["/a", "/x", "/y"] ∧
      (∀ k, k ∈ r.deletes → k ∈ ["/a", "/x", "/y"]) ∧
      (∀ k, k ∈ r.deletes →
        ¬ ∃ node, node ∈ treeNodes [.mk "/d" true [.mk "/a" false []]] ∧
          node.Dir = false ∧ node.Key = k) :=
  ⟨rfl, rfl,
   C3_live_deletes_only_orphans (flatStores [.mk "/d" true [.mk "/a" false []]]) plainQuote
     ["/a", "/x", "/y"] [.mk "/d" true [.mk "/a" false []]] ["/a", "/x", "/y"] rfl
     rfl⟩

/-- Claim C4. In live mode the apply loop issues one delete per orphan key, in list order,
whatever the outcomes of the earlier deletes, and prints one outcome line per orphan key in
the same order: the quoted key followed by `key deleted` after a success, `Unable to delete
key`, the key and the reason after a failure. The first part holds for arbitrary stores;
the second part spells it out for every assignment `script` of outcomes to the calls. -/
theorem C4_apply_loop_failure_isolation (quote : String → String) (tree : List Node)
    (v3keys : List String) :
    (∀ (σ : Type) (S : Stores σ) (s : σ),
      S.v2Get s = .ok tree → S.v3Get s "/" = .ok v3keys →
      ∃ r, main S quote false s = .ok r ∧
        r.deletes = getDeletedv3Keys (getLeafKeys tree) v3keys ∧
        (deleteResults S s r.deletes).map Prod.fst = r.deletes ∧
        r.out = summary (getLeafKeys tree) v3keys r.deletes
          ++ (deleteResults S s r.deletes).map (outcomeLine quote)) ∧
    (∀ script : List (Option String),
      script.length = (getDeletedv3Keys (getLeafKeys tree) v3keys).length →
      ∃ r, main (scriptedStores tree v3keys) quote false script = .ok r ∧
        r.deletes = getDeletedv3Keys (getLeafKeys tree) v3keys ∧
        r.out = summary (getLeafKeys tree) v3keys r.deletes
          ++ List.zipWith
              (fun key res =>
                match res with
                | none => quote key ++ " key deleted\n"
                | some err => "Unable to delete key " ++ key ++ ": " ++ err ++ "\n")
              r.deletes script) := by
  constructor
  · intro σ S s h2 h3
    exact ⟨_, main_live S quote s tree v3keys h2 h3, rfl, deleteResults_keys S _ s, rfl⟩
  · intro script hlen
    refine ⟨_, main_live (scriptedStores tree v3keys) quote script tree v3keys rfl rfl, rfl, ?_⟩
    simp only [deleteResults_scripted tree v3keys _ script hlen, outcomeLine_zip]

/-- Witness for C4: three orphans, the delete of the second one fails; the report shows the
first deleted, the second failed with its reason, the third deleted. -/
theorem C4_apply_loop_failure_isolation_witness :
    [none, some "timeout", none].length
      = (getDeletedv3Keys (getLeafKeys []) ["/k1", "/k2", "/k3"]).length ∧
    ∃ r, main (scriptedStores [] ["/k1", "/k2", "/k3"]) plainQuote false
          [none, some "timeout", none] = .ok r ∧
      r.deletes = ["/k1", "/k2", "/k3"] ∧
      r.out = [ "# v2 keys in total: 0\n",
                "# v3 keys in total: 3\n",
                "# v3 keys not present in v2 (total: 3):\n\n",
                "\"/k1\" key deleted\n",
                "Unable to delete key /k2: timeout\n",
                "\"/k3\" key deleted\n" ] :=
  ⟨by decide, by
    obtain ⟨r, hr, hd, ho⟩ :=
      (C4_apply_loop_failure_isolation plainQuote [] ["/k1", "/k2", "/k3"]).2
        [none, some "timeout", none] (by decide)
    refine ⟨r, hr, ?_, ?_⟩
    · rw [hd]; decide
    · rw [ho, hd]; decide⟩

/-- Claim C5. With `dryRun = true`, for every v2 tree and every flat store content, no
delete is issued and the store state after the run is the state before it, while the report
still lists every orphan: after the summary and the heading, each element of
`getDeletedv3Keys (getLeafKeys tree) v3keys` is printed as a bare key line, in order. -/
theorem C5_dry_run_frame {σ : Type} (S : Stores σ) (quote : String → String)
    (s : σ) (tree : List Node) (v3keys : List String)
    (h2 : S.v2Get s = .ok tree) (h3 : S.v3Get s "/" = .ok v3keys) :
    ∃ r, main S quote true s = .ok r ∧
      r.deletes = [] ∧
      r.store = s ∧
      r.out = summary (getLeafKeys tree) v3keys (getDeletedv3Keys (getLeafKeys tree) v3keys)
        ++ [listHeading]
        ++ (getDeletedv3Keys (getLeafKeys tree) v3keys).map (fun key => key ++ "\n") :=
  ⟨_, main_dry S quote s tree v3keys h2 h3, rfl, rfl, rfl⟩

/-- Witness for C5: a flat store holding one v2 leaf and two orphans, left as it was. -/
theorem C5_dry_run_frame_witness :
    (flatStores [.mk "/a" false []]).v2Get ["/a", "/x", "/y"] = .ok [.mk "/a" false []] ∧
    (flatStores [.mk "/a" false []]).v3Get ["/a", "/x", "/y"] "/" = .ok ["/a", "/x", "/y"] ∧
    ∃ r, main (flatStores [.mk "/a" false []]) plainQuote true ["/a", "/x", "/y"] = .ok r ∧
      r.deletes = [] ∧
      r.store = ["/a", "/x", "/y"] ∧
      r.out = [ "# v2 keys in total: 1\n",
                "# v3 keys in total: 3\n",
                "# v3 keys not present in v2 (total: 2):\n\n",
                "# List of keys that would be deleted:\n",
                "/x\n",
                "/y\n" ] :=
  ⟨rfl, rfl, by
    obtain ⟨r, hr, hd, hs, ho⟩ :=
      C5_dry_run_frame (flatStores [.mk "/a" false []]) plainQuote ["/a", "/x", "/y"]
        [.mk "/a" false []] ["/a", "/x", "/y"] rfl rfl
    refine ⟨r, hr, hd, hs, ?_⟩
    rw [ho]; decide⟩

/-! ## Counting the lines of the report -/

/-- Line terminators add up over concatenation. -/
theorem newlines_append (a b : String) : newlines (a ++ b) = newlines a + newlines b := by
  unfold newlines
  rw [String.data_append, List.count_append]

/-- Line counts add up over concatenation of outputs. -/
theorem lineCount_append (a b : List String) : lineCount (a ++ b) = lineCount a + lineCount b := by
  simp [lineCount]

/-- A conditional between two characters that both differ from `x` differs from `x`. -/
theorem ite_ne_char {c : Prop} [Decidable c] {a b x : Char} (ha : a ≠ x) (hb : b ≠ x) :
    (if c then a else b) ≠ x := by
  split <;> assumption

/-- No digit character is a line terminator. -/
theorem digitChar_ne_newline (n : Nat) : Nat.digitChar n ≠ '\n' := by
  unfold Nat.digitChar
  repeat (refine ite_ne_char (by decide) ?_)
  decide

/-- The digit loop adds no line terminator. -/
theorem toDigitsCore_no_newline (fuel n : Nat) (ds : List Char) (h : '\n' ∉ ds) :
    '\n' ∉ Nat.toDigitsCore 10 fuel n ds := by
  induction fuel generalizing n ds with
  | zero => simpa [Nat.toDigitsCore] using h
  | succ fuel ih =>
    have hd : '\n' ∉ Nat.digitChar (n % 10) :: ds := by
      intro hmem
      rcases List.mem_cons.1 hmem with h1 | h1
      · exact digitChar_ne_newline (n % 10) h1.symm
      · exact h h1
    unfold Nat.toDigitsCore
    by_cases hz : n / 10 = 0
    · simpa [hz] using hd
    · simpa [hz] using ih _ _ hd

/-- The decimal rendering of a count holds no line terminator. -/
theorem newlines_toString_nat (n : Nat) : newlines (toString n) = 0 := by
  have h : '\n' ∉ Nat.toDigits 10 n := toDigitsCore_no_newline _ _ _ (by simp)
  have e : (toString n).data = Nat.toDigits 10 n := rfl
  unfold newlines
  rw [e, List.count_eq_zero]
  exact h

/-- The summary is three lines of text and one empty line. -/
theorem lineCount_summary (keys v3keys deleted : List String) :
    lineCount (summary keys v3keys deleted) = 4 := by
  have h1 : newlines "# v2 keys in total: " = 0 := by decide
  have h2 : newlines "# v3 keys in total: " = 0 := by decide
  have h3 : newlines "# v3 keys not present in v2 (total: " = 0 := by decide
  have h4 : newlines "\n" = 1 := by decide
  have h5 : newlines "):\n\n" = 2 := by decide
  simp [lineCount, summary, newlines_append, newlines_toString_nat, h1, h2, h3, h4, h5]

/-- Lines that each hold one line terminator count as many lines as there are. -/
theorem lineCount_of_single (body : List String) (h : ∀ line, line ∈ body → newlines line = 1) :
    lineCount body = body.length := by
  induction body with
  | nil => simp [lineCount]
  | cons line rest ih =>
    have hrest : lineCount rest = rest.length := ih (fun l hl => h l (List.mem_cons_of_mem _ hl))
    have hline : newlines line = 1 := h line (List.mem_cons_self _ _)
    simp only [lineCount, List.map_cons, List.sum_cons, List.length_cons] at hrest ⊢
    omega

/-- A report line of the live loop is a single line when the quoted key, the key and the
reason hold no line terminator. -/
theorem newlines_outcomeLine (quote : String → String) (key : String) (res : Option String)
    (hquote : newlines (quote key) = 0) (hkey : newlines key = 0)
    (herr : ∀ err, res = some err → newlines err = 0) :
    newlines (outcomeLine quote (key, res)) = 1 := by
  have h1 : newlines " key deleted\n" = 1 := by decide
  have h2 : newlines "Unable to delete key " = 0 := by decide
  have h3 : newlines ": " = 0 := by decide
  have h4 : newlines "\n" = 1 := by decide
  cases res with
  | none => simp [outcomeLine, deletedLine, newlines_append, hquote, h1]
  | some err =>
    simp [outcomeLine, failedLine, newlines_append, hkey, herr err rfl, h2, h3, h4]

/-- Counterexample to claim C8 as stated. With an empty v2 tree and the single v3 key `/x`
there is one orphan, and the output has six lines in dry-run mode and five lines in live
mode, not `3 + 1`: the third summary line is followed by an empty line, and dry-run mode
prints a heading before the keys. -/
theorem C8_three_plus_orphans_refuted :
    (∃ r, main (flatStores []) plainQuote true ["/x"] = .ok r ∧
      r.out = [ "# v2 keys in total: 0\n",
                "# v3 keys in total: 1\n",
                "# v3 keys not present in v2 (total: 1):\n\n",
                "# List of keys that would be deleted:\n",
                "/x\n" ] ∧
      lineCount r.out = 6 ∧
      lineCount r.out ≠ 3 + (getDeletedv3Keys (getLeafKeys []) ["/x"]).length) ∧
    (∃ r, main (flatStores []) plainQuote false ["/x"] = .ok r ∧
      r.out = [ "# v2 keys in total: 0\n",
                "# v3 keys in total: 1\n",
                "# v3 keys not present in v2 (total: 1):\n\n",
                "\"/x\" key deleted\n" ] ∧
      lineCount r.out = 5 ∧
      lineCount r.out ≠ 3 + (getDeletedv3Keys (getLeafKeys []) ["/x"]).length) := by
  constructor
  · refine ⟨_, main_dry (flatStores []) plainQuote ["/x"] [] ["/x"] rfl rfl, ?_, ?_, ?_⟩ <;>
      decide
  · refine ⟨_, main_live (flatStores []) plainQuote ["/x"] [] ["/x"] rfl rfl, ?_, ?_, ?_⟩ <;>
      decide

/-- Claim C8, amended. For every run that gets past both listings the output is the three
summary lines, the third one followed by an empty line, then in dry-run mode only the
heading `# List of keys that would be deleted:`, then one print per orphan key and nothing
else. When the listed keys, their quoted forms and the failure reasons hold no line
terminator, each of those prints is one line, so the output has `4 + n` lines in live mode
and `5 + n` lines in dry-run mode, `n` being the number of orphans. -/
theorem C8_report_shape {σ : Type} (S : Stores σ) (quote : String → String) (dryRun : Bool)
    (s : σ) (tree : List Node) (v3keys : List String)
    (h2 : S.v2Get s = .ok tree) (h3 : S.v3Get s "/" = .ok v3keys) :
    ∃ r body, main S quote dryRun s = .ok r ∧
      r.out = summary (getLeafKeys tree) v3keys (getDeletedv3Keys (getLeafKeys tree) v3keys)
        ++ (if dryRun then [listHeading] else []) ++ body ∧
      body.length = (getDeletedv3Keys (getLeafKeys tree) v3keys).length ∧
      lineCount (summary (getLeafKeys tree) v3keys (getDeletedv3Keys (getLeafKeys tree) v3keys))
        = 4 ∧
      ((∀ k, k ∈ v3keys → newlines k = 0) →
       (∀ k, k ∈ v3keys → newlines (quote k) = 0) →
       (∀ k err,
          (k, some err) ∈ deleteResults S s (getDeletedv3Keys (getLeafKeys tree) v3keys) →
          newlines err = 0) →
       (∀ line, line ∈ body → newlines line = 1) ∧
       lineCount r.out
        = 4 + (if dryRun then 1 else 0)
            + (getDeletedv3Keys (getLeafKeys tree) v3keys).length) := by
  have hnl : newlines "\n" = 1 := by decide
  have hhead : lineCount [listHeading] = 1 := by decide
  cases dryRun with
  | true =>
    refine ⟨_, (getDeletedv3Keys (getLeafKeys tree) v3keys).map (fun key => key ++ "\n"),
      main_dry S quote s tree v3keys h2 h3, by simp, by simp, lineCount_summary _ _ _, ?_⟩
    intro hkeys _ _
    have hbody : ∀ line,
        line ∈ (getDeletedv3Keys (getLeafKeys tree) v3keys).map (fun key => key ++ "\n") →
        newlines line = 1 := by
      intro line hline
      obtain ⟨key, hkey, rfl⟩ := List.mem_map.1 hline
      rw [newlines_append, hkeys key ((mem_getDeletedv3Keys _ _ key).1 hkey).1, hnl]
    refine ⟨hbody, ?_⟩
    simp only [lineCount_append, lineCount_summary, hhead, lineCount_of_single _ hbody,
      List.length_map, if_true]
  | false =>
    have hlen : ((deleteResults S s (getDeletedv3Keys (getLeafKeys tree) v3keys)).map
        (outcomeLine quote)).length = (getDeletedv3Keys (getLeafKeys tree) v3keys).length := by
      have h := congrArg List.length (deleteResults_keys S
        (getDeletedv3Keys (getLeafKeys tree) v3keys) s)
      simpa using h
    refine ⟨_, (deleteResults S s (getDeletedv3Keys (getLeafKeys tree) v3keys)).map
        (outcomeLine quote),
      main_live S quote s tree v3keys h2 h3, by simp, hlen, lineCount_summary _ _ _, ?_⟩
    intro hkeys hquote herr
    have hbody : ∀ line,
        line ∈ (deleteResults S s (getDeletedv3Keys (getLeafKeys tree) v3keys)).map
          (outcomeLine quote) →
        newlines line = 1 := by
      intro line hline
      obtain ⟨⟨key, res⟩, hmem, rfl⟩ := List.mem_map.1 hline
      have hkey : key ∈ getDeletedv3Keys (getLeafKeys tree) v3keys := by
        rw [← deleteResults_keys S (getDeletedv3Keys (getLeafKeys tree) v3keys) s]
        exact List.mem_map.2 ⟨(key, res), hmem, rfl⟩
      have hlisted : key ∈ v3keys := ((mem_getDeletedv3Keys _ _ key).1 hkey).1
      exact newlines_outcomeLine quote key res (hquote key hlisted) (hkeys key hlisted)
        (fun err he => herr key err (by rw [← he]; exact hmem))
    refine ⟨hbody, ?_⟩
    simp only [lineCount_append, lineCount_summary, lineCount_of_single _ hbody, hlen]
    simp

/-- Witness for C8: a live run with one v2 leaf and two orphans, the first delete failing;
the output has `4 + 2` lines. -/
theorem C8_report_shape_witness :
    ∃ r, main (scriptedStores [.mk "/a" false []] ["/a", "/k1", "/k2"]) plainQuote false
          [some "timeout", none] = .ok r ∧
      r.out = [ "# v2 keys in total: 1\n",
                "# v3 keys in total: 3\n",
                "# v3 keys not present in v2 (total: 2):\n\n",
                "Unable to delete key /k1: timeout\n",
                "\"/k2\" key deleted\n" ] ∧
      lineCount r.out = 6 := by
  obtain ⟨r, body, hr, -, -, -, hlines⟩ :=
    C8_report_shape (scriptedStores [.mk "/a" false []] ["/a", "/k1", "/k2"]) plainQuote false
      [some "timeout", none] [.mk "/a" false []] ["/a", "/k1", "/k2"] rfl rfl
  have hcount := (hlines (by decide) (by decide)
      (by
        intro k err hmem
        have hres : deleteResults (scriptedStores [.mk "/a" false []] ["/a", "/k1", "/k2"])
            [some "timeout", none]
            (getDeletedv3Keys (getLeafKeys [.mk "/a" false []]) ["/a", "/k1", "/k2"])
            = [("/k1", some "timeout"), ("/k2", none)] := by decide
        rw [hres] at hmem
        simp at hmem
        rw [hmem.2]
        decide)).2
  have hrun := main_live (scriptedStores [.mk "/a" false []] ["/a", "/k1", "/k2"]) plainQuote
    [some "timeout", none] [.mk "/a" false []] ["/a", "/k1", "/k2"] rfl rfl
  rw [hrun] at hr
  cases hr
  exact ⟨_, hrun, by decide, hcount⟩

/-! ## The flat listing and the second run -/

/-- On the modelled flat store, `getV3Keys` returns the keys from `"/"` upwards. -/
theorem getV3Keys_flatStores (tree : List Node) (store : List String) :
    getV3Keys (flatStores tree) store = .ok (fromKeyRead store "/") :=
  getV3Keys_ok (flatStores tree) store (fromKeyRead store "/") rfl

/-- The keys read from `"/"` upwards are the stored keys that are at least `"/"` in the
order of strings. -/
theorem mem_fromKeyRead (store : List String) (start k : String) :
    k ∈ fromKeyRead store start ↔ k ∈ store ∧ start ≤ k := by
  simp [fromKeyRead, String.le_iff_toList_le]

/-- A read from the empty key, the smallest one, returns the whole store. -/
theorem fromKeyRead_empty (store : List String) : fromKeyRead store "" = store := by
  unfold fromKeyRead
  rw [List.filter_eq_self]
  intro k _
  have h : "".toList = [] := rfl
  simp [h]

/-- On a store whose deletes may fail, `getV3Keys` returns the stored keys from `"/"`
upwards. -/
theorem getV3Keys_faultyStores (tree : List Node) (st : List String × List (Option String)) :
    getV3Keys (faultyStores tree) st = .ok (fromKeyRead st.1 "/") :=
  getV3Keys_ok (faultyStores tree) st (fromKeyRead st.1 "/") rfl

/-- One delete on a store whose deletes may fail: either it fails and the keys stay, or it
succeeds and the key is removed. -/
theorem faultyStores_delete (tree : List Node) (st : List String × List (Option String))
    (key : String) :
    (∃ err, ((faultyStores tree).v3Delete st key).2 = some err ∧
      ((faultyStores tree).v3Delete st key).1.1 = st.1) ∨
    (((faultyStores tree).v3Delete st key).2 = none ∧
      ((faultyStores tree).v3Delete st key).1.1 = st.1.filter (fun k => decide (k ≠ key))) := by
  obtain ⟨keys, script⟩ := st
  cases script with
  | nil => exact Or.inr ⟨rfl, rfl⟩
  | cons res rest =>
    cases res with
    | none => exact Or.inr ⟨rfl, rfl⟩
    | some err => exact Or.inl ⟨err, rfl, rfl⟩

/-- After a sequence of deletes on a store whose deletes may fail, the stored keys are the
initial ones without the keys whose delete succeeded. -/
theorem storeAfter_faultyStores (tree : List Node) (targets : List String)
    (st : List String × List (Option String)) :
    (storeAfter (faultyStores tree) st targets).1
      = st.1.filter
          (fun k => decide (k ∉ succeededKeys (deleteResults (faultyStores tree) st targets))) := by
  induction targets generalizing st with
  | nil => simp [storeAfter, deleteResults, succeededKeys]
  | cons key rest ih =>
    rw [storeAfter, deleteResults, ih]
    rcases faultyStores_delete tree st key with ⟨err, hres, hkeys⟩ | ⟨hres, hkeys⟩
    · rw [hres, hkeys]
      simp [succeededKeys]
    · rw [hres, hkeys, List.filter_filter]
      apply List.filter_congr
      intro k _
      simp [succeededKeys, Bool.and_comm]

/-- When every delete succeeded, the keys whose delete succeeded are all the keys tried. -/
theorem succeededKeys_of_all_none (results : List (String × Option String))
    (h : ∀ p, p ∈ results → p.2 = none) : succeededKeys results = results.map Prod.fst := by
  induction results with
  | nil => simp [succeededKeys]
  | cons p rest ih =>
    obtain ⟨key, res⟩ := p
    have hres : res = none := h (key, res) (List.mem_cons_self _ _)
    subst hres
    simp [succeededKeys, ih (fun q hq => h q (List.mem_cons_of_mem _ hq))]

/-- The orphans of a listing from which keys were removed are the orphans of the listing
without those keys. -/
theorem orphans_after_removal (v2keys store removed : List String) :
    getDeletedv3Keys v2keys
        (fromKeyRead (store.filter (fun k => decide (k ∉ removed))) "/")
      = (getDeletedv3Keys v2keys (fromKeyRead store "/")).filter
          (fun k => decide (k ∉ removed)) := by
  simp only [getDeletedv3Keys_eq_filter, fromKeyRead, List.filter_filter]
  apply List.filter_congr
  intro k _
  cases decide (k ∉ v2keys) <;> cases decide ("/".toList ≤ k.toList) <;>
    cases decide (k ∉ removed) <;> rfl

/-- Counterexample to claim C6 as stated. The v2 tree holds the leaf `/a` and the flat store
the keys `/a`, `/x`, `/y`. In the first live run the delete of `/x` fails and the delete of
`/y` succeeds, so the store after the run is the initial content with the deleted key `/y`
removed. With no write in between, the second live run lists `/a` and `/x` and its orphan
list is `/x`, not empty. -/
theorem C6_second_run_orphans_refuted :
    ∃ r1, main (faultyStores [.mk "/a" false []]) plainQuote false
            (["/a", "/x", "/y"], [some "timeout", none]) = .ok r1 ∧
      r1.out = [ "# v2 keys in total: 1\n",
                 "# v3 keys in total: 3\n",
                 "# v3 keys not present in v2 (total: 2):\n\n",
                 "Unable to delete key /x: timeout\n",
                 "\"/y\" key deleted\n" ] ∧
      r1.store.1 = ["/a", "/x", "/y"].filter (fun k => decide (k ∉ ["/y"])) ∧
      getV3Keys (faultyStores [.mk "/a" false []]) r1.store = .ok ["/a", "/x"] ∧
      getDeletedv3Keys (getLeafKeys [.mk "/a" false []]) ["/a", "/x"] = ["/x"] ∧
      getDeletedv3Keys (getLeafKeys [.mk "/a" false []]) ["/a", "/x"] ≠ [] ∧
      ∃ r2, main (faultyStores [.mk "/a" false []]) plainQuote false r1.store = .ok r2 ∧
        r2.deletes = ["/x"] := by
  refine ⟨_, main_live (faultyStores [.mk "/a" false []]) plainQuote
      (["/a", "/x", "/y"], [some "timeout", none]) [.mk "/a" false []] ["/a", "/x", "/y"]
      rfl rfl, by decide, by decide, rfl, by decide, by decide, ?_⟩
  exact ⟨_, main_live (faultyStores [.mk "/a" false []]) plainQuote (["/a", "/x"], [])
      [.mk "/a" false []] ["/a", "/x"] rfl rfl, by decide⟩

/-- Claim C6, amended. Two live runs with no write in between, on a flat store whose deletes
may fail, for every v2 tree, every initial content `keys` and every assignment `script` of
outcomes to the deletes of the first run. The first run tries its orphans; the store it
leaves is the initial content without the keys whose delete succeeded; the orphan list of
the second run, which is what it tries to delete, is the orphan list of the first run
without the keys whose delete succeeded. So the second run finds no orphan when every
delete of the first run succeeded. -/
theorem C6_second_run_orphans (quote : String → String) (tree : List Node)
    (keys : List String) (script script2 : List (Option String)) :
    ∃ r1 r2 keys2,
      main (faultyStores tree) quote false (keys, script) = .ok r1 ∧
      r1.deletes = getDeletedv3Keys (getLeafKeys tree) (fromKeyRead keys "/") ∧
      r1.store.1 = keys.filter (fun k => decide
        (k ∉ succeededKeys (deleteResults (faultyStores tree) (keys, script) r1.deletes))) ∧
      getV3Keys (faultyStores tree) (r1.store.1, script2) = .ok keys2 ∧
      getDeletedv3Keys (getLeafKeys tree) keys2 = r1.deletes.filter (fun k => decide
        (k ∉ succeededKeys (deleteResults (faultyStores tree) (keys, script) r1.deletes))) ∧
      main (faultyStores tree) quote false (r1.store.1, script2) = .ok r2 ∧
      r2.deletes = getDeletedv3Keys (getLeafKeys tree) keys2 ∧
      ((∀ p, p ∈ deleteResults (faultyStores tree) (keys, script) r1.deletes → p.2 = none) →
        getDeletedv3Keys (getLeafKeys tree) keys2 = [] ∧ r2.deletes = []) := by
  have hstore := storeAfter_faultyStores tree
    (getDeletedv3Keys (getLeafKeys tree) (fromKeyRead keys "/")) (keys, script)
  have horph : getDeletedv3Keys (getLeafKeys tree)
      (fromKeyRead (storeAfter (faultyStores tree) (keys, script)
        (getDeletedv3Keys (getLeafKeys tree) (fromKeyRead keys "/"))).1 "/")
      = (getDeletedv3Keys (getLeafKeys tree) (fromKeyRead keys "/")).filter (fun k => decide
          (k ∉ succeededKeys (deleteResults (faultyStores tree) (keys, script)
            (getDeletedv3Keys (getLeafKeys tree) (fromKeyRead keys "/"))))) := by
    rw [hstore]
    exact orphans_after_removal _ _ _
  refine ⟨_, _, _,
    main_live (faultyStores tree) quote (keys, script) tree (fromKeyRead keys "/") rfl rfl,
    rfl, hstore, getV3Keys_faultyStores tree _, horph,
    main_live (faultyStores tree) quote _ tree _ rfl rfl, rfl, ?_⟩
  intro hall
  have hempty : getDeletedv3Keys (getLeafKeys tree)
      (fromKeyRead (storeAfter (faultyStores tree) (keys, script)
        (getDeletedv3Keys (getLeafKeys tree) (fromKeyRead keys "/"))).1 "/") = [] := by
    rw [horph, succeededKeys_of_all_none _ hall, deleteResults_keys, List.filter_eq_nil_iff]
    intro k hk
    simpa using hk
  exact ⟨hempty, hempty⟩

/-- Witness for C6: the store `-w`, `/a`, `/x`, `/y` with v2 leaf `/a`; both deletes of the
first run succeed, the store is left with `-w` and `/a`, and the second run finds no
orphan. -/
theorem C6_second_run_orphans_witness :
    ∃ r1 r2,
      main (faultyStores [.mk "/a" false []]) plainQuote false
        (["-w", "/a", "/x", "/y"], [none, none]) = .ok r1 ∧
      r1.deletes = ["/x", "/y"] ∧
      r1.store.1 = ["-w", "/a"] ∧
      main (faultyStores [.mk "/a" false []]) plainQuote false (r1.store.1, []) = .ok r2 ∧
      r2.deletes = [] := by
  obtain ⟨r1, r2, keys2, h1, hd1, hs1, -, -, h2, hd2, hnone⟩ :=
    C6_second_run_orphans plainQuote [.mk "/a" false []] ["-w", "/a", "/x", "/y"]
      [none, none] []
  have hdel : getDeletedv3Keys (getLeafKeys [.mk "/a" false []])
      (fromKeyRead ["-w", "/a", "/x", "/y"] "/") = ["/x", "/y"] := by decide
  rw [hdel] at hd1
  rw [hd1] at hs1 hnone
  refine ⟨r1, r2, h1, hd1, ?_, h2, (hnone (by decide)).2⟩
  rw [hs1]
  decide

/-- Claim C7, on the code. `getV3Keys` sends the start key `"/"`, not the smallest key `""`
named by its comment. On a flat store it returns the stored keys from `"/"` upwards; on the
store holding `-x` and `/b` it returns `/b` alone, whereas the read from `""` returns both
keys. -/
theorem C7_getV3Keys_starts_at_slash :
    (∀ (tree : List Node) (store : List String),
      ∃ keys, getV3Keys (flatStores tree) store = .ok keys ∧
        ∀ k, k ∈ keys ↔ (k ∈ store ∧ "/" ≤ k)) ∧
    getV3Keys (flatStores []) ["-x", "/b"] = .ok ["/b"] ∧
    "-x" ∉ fromKeyRead ["-x", "/b"] "/" ∧
    fromKeyRead ["-x", "/b"] "" = ["-x", "/b"] := by
  refine ⟨?_, rfl, by decide, by decide⟩
  intro tree store
  exact ⟨_, getV3Keys_flatStores tree store, fun k => mem_fromKeyRead store "/" k⟩

end Sieve
